import Mathlib

/-!
Shallow embedding of the mcp-server-github-repo bridge (src/index.ts) and
verification of its specification claims.

The source is a single TypeScript module. Pure request logic is translated
into Lean functions. The network boundary (fetch) is modelled as an oracle
from a URL and request headers to an HTTP response whose body is the already
parsed JSON value; every content access operation additionally returns the
list of URLs it fetched, which records the outbound calls it made. Machine
strings are Lean strings, bytes are Nat values below 256.
-/

namespace GithubRepoMcp

/-- JSON values as produced by response.json(). Numbers are modelled as
integers, which covers every numeric field of the forge content API (sizes). -/
inductive Json where
  | null : Json
  | bool (b : Bool) : Json
  | num (n : Int) : Json
  | str (s : String) : Json
  | arr (elems : List Json) : Json
  | obj (fields : List (String × Json)) : Json

/-- Association lookup for JSON object fields. Keys are assumed unique, as
JSON.parse keeps one binding per key in the objects the forge returns. -/
def lookupKey : List (String × Json) → String → Option Json
  | [], _ => none
  | (k, v) :: rest, key => if k = key then some v else lookupKey rest key

/-- JavaScript property access on a parsed JSON value: a field of an object,
and undefined (none) on every other shape. -/
def Json.lookup : Json → String → Option Json
  | .obj fields, key => lookupKey fields key
  | _, _ => none

mutual
/-- JavaScript String(x) coercion of a parsed JSON value. -/
def Json.jsToString : Json → String
  | .null => "null"
  | .bool b => cond b "true" "false"
  | .num n => toString n
  | .str s => s
  | .arr elems => String.intercalate "," (jsArrayElemStrings elems)
  | .obj _ => "[object Object]"

/-- Array elements under Array.prototype.join, where null prints as the
empty string. -/
def jsArrayElemStrings : List Json → List String
  | [] => []
  | .null :: rest => "" :: jsArrayElemStrings rest
  | j :: rest => j.jsToString :: jsArrayElemStrings rest
end

/-- Field access followed by JavaScript string coercion; a missing field is
undefined, which coerces to the text "undefined". -/
def jsFieldString (j : Json) (key : String) : String :=
  match j.lookup key with
  | some v => v.jsToString
  | none => "undefined"

/-- Model of a fetch Response: the HTTP status, its status text, and the
already parsed JSON body. -/
structure HttpResponse where
  status : Nat
  statusText : String
  body : Json

/-- Response.ok is true exactly for 2xx statuses. -/
def HttpResponse.ok (r : HttpResponse) : Bool :=
  decide (200 ≤ r.status ∧ r.status < 300)

/-- The network oracle: maps a request URL and headers to the response. -/
abbrev Fetch : Type := String → List (String × String) → HttpResponse

/-- An oracle that answers every request with the same response. -/
def constFetch (r : HttpResponse) : Fetch := fun _ _ => r

/-- Parameters of createGithubRepoServer (GithubRepoServerParams in the
source). The branch field is optional in the source type. -/
structure GithubRepoServerParams where
  githubPersonalAccessToken : String
  owner : String
  repo : String
  branch : Option String

/-- Model of the constructed Server instance: the advertised identity, the
declared capability groups, and the captured configuration. -/
structure McpServer where
  serverName : String
  version : String
  capabilities : List String
  config : GithubRepoServerParams

/-- Translation of createGithubRepoServer, lines 51 to 78 of the source:
validates the three required fields in order and throws on the first falsy
one; a JavaScript string is falsy exactly when it is empty. Construction is
pure: no fetch oracle is consulted, so no network call can occur. -/
def createGithubRepoServer (params : GithubRepoServerParams) : Except String McpServer :=
  if params.githubPersonalAccessToken = "" then
    .error "githubPersonalAccessToken is required"
  else if params.owner = "" then
    .error "owner is required"
  else if params.repo = "" then
    .error "repo is required"
  else
    .ok { serverName := "@loglm/mcp-server-github-repo", version := "0.1.0",
          capabilities := ["resources", "tools"], config := params }

/-- Request headers built by both content operations, lines 91 to 95. -/
def requestHeaders (config : GithubRepoServerParams) : List (String × String) :=
  [("Authorization", "token " ++ config.githubPersonalAccessToken),
   ("Accept", "application/vnd.github.v3+json"),
   ("User-Agent", "mcp-server-github-repo")]

/-- URL built by listFiles, lines 85 to 88: the contents URL for the path,
with a ref query parameter appended only when the configured branch is
truthy (present and nonempty). -/
def listFilesUrl (config : GithubRepoServerParams) (path : String) : String :=
  let url := "https://api.github.com/repos/" ++ config.owner ++ "/" ++ config.repo
      ++ "/contents/" ++ path
  match config.branch with
  | some b => if b = "" then url else url ++ "?ref=" ++ b
  | none => url

/-- URL built by getFileContent, lines 107 to 110; the source duplicates the
construction of listFiles verbatim. -/
def getFileContentUrl (config : GithubRepoServerParams) (path : String) : String :=
  let url := "https://api.github.com/repos/" ++ config.owner ++ "/" ++ config.repo
      ++ "/contents/" ++ path
  match config.branch with
  | some b => if b = "" then url else url ++ "?ref=" ++ b
  | none => url

/-- Content base URL (resourceBaseUrl in the source, lines 80 to 82). -/
def resourceBaseUrl (config : GithubRepoServerParams) : String :=
  "https://api.github.com/repos/" ++ config.owner ++ "/" ++ config.repo ++ "/contents/"

/-- Model of resolving a relative reference against a base URL, as performed
by the WHATWG URL constructor in the list resources handler (line 138): for
a base ending in a slash and a plain relative path the result is their
concatenation. -/
def resolveUrl (base rel : String) : String := base ++ rel

/-- Base64 alphabet: the character for a sextet value below 64. -/
def sextetChar (n : Nat) : Char :=
  if n < 26 then Char.ofNat (65 + n)
  else if n < 52 then Char.ofNat (97 + (n - 26))
  else if n < 62 then Char.ofNat (48 + (n - 52))
  else if n = 62 then '+' else '/'

/-- Inverse base64 alphabet: the sextet value of a character, none for a
character outside the alphabet (padding included). -/
def base64CharVal (ch : Char) : Option Nat :=
  let n := ch.toNat
  if 65 ≤ n ∧ n ≤ 90 then some (n - 65)
  else if 97 ≤ n ∧ n ≤ 122 then some (26 + (n - 97))
  else if 48 ≤ n ∧ n ≤ 57 then some (52 + (n - 48))
  else if n = 43 then some 62
  else if n = 47 then some 63
  else none

/-- Standard base64 encoding of a byte list, three bytes to four characters,
with equals sign padding. Used on the specification side of the round trip
claims to state what a base64 encoded content field is. -/
def base64EncodeList : List Nat → List Char
  | b0 :: b1 :: b2 :: rest =>
      sextetChar (b0 / 4) :: sextetChar ((b0 % 4) * 16 + b1 / 16) ::
      sextetChar ((b1 % 16) * 4 + b2 / 64) :: sextetChar (b2 % 64) ::
      base64EncodeList rest
  | [b0, b1] =>
      [sextetChar (b0 / 4), sextetChar ((b0 % 4) * 16 + b1 / 16),
       sextetChar ((b1 % 16) * 4), '=']
  | [b0] =>
      [sextetChar (b0 / 4), sextetChar ((b0 % 4) * 16), '=', '=']
  | [] => []

/-- Base64 encoding of a byte list as a string. -/
def base64Encode (bytes : List Nat) : String := (base64EncodeList bytes).asString

/-- Base64 decoding of a sextet list in groups of four, with the trailing
group of two or three sextets yielding one or two bytes. -/
def base64DecodeQuads : List Nat → List Nat
  | s0 :: s1 :: s2 :: s3 :: rest =>
      (s0 * 4 + s1 / 16) :: ((s1 % 16) * 16 + s2 / 4) :: ((s2 % 4) * 64 + s3) ::
      base64DecodeQuads rest
  | [s0, s1, s2] => [s0 * 4 + s1 / 16, (s1 % 16) * 16 + s2 / 4]
  | [s0, s1] => [s0 * 4 + s1 / 16]
  | _ => []

/-- Model of Buffer.from(s, "base64") used on line 130: the Node decoder is
forgiving and skips characters outside the alphabet, padding included. -/
def base64Decode (s : String) : List Nat :=
  base64DecodeQuads (s.data.filterMap base64CharVal)

/-- UTF-8 encoding of one character, one to four bytes by scalar range. Used
on the specification side to state what the UTF-8 bytes of a string are. -/
def utf8EncodeChar (c : Char) : List Nat :=
  let v := c.toNat
  if v < 128 then [v]
  else if v < 2048 then [192 + v / 64, 128 + v % 64]
  else if v < 65536 then [224 + v / 4096, 128 + (v / 64) % 64, 128 + v % 64]
  else [240 + v / 262144, 128 + (v / 4096) % 64, 128 + (v / 64) % 64, 128 + v % 64]

/-- UTF-8 encoding of a character list. -/
def utf8EncodeList : List Char → List Nat
  | [] => []
  | c :: rest => utf8EncodeChar c ++ utf8EncodeList rest

/-- UTF-8 encoding of a string. -/
def utf8Encode (s : String) : List Nat := utf8EncodeList s.data

/-- Unicode replacement character, emitted by a lossy decoder on error. -/
def replacementChar : Char := Char.ofNat 65533

/-- Model of Buffer.prototype.toString with the utf8 label (line 130): the
WHATWG UTF-8 decoder with replacement on error, which never throws. Valid
sequences decode to their scalar value; overlong forms, surrogates, stray
continuation bytes and truncated sequences yield the replacement character. -/
def decodeUtf8 : List Nat → List Char
  | [] => []
  | b :: rest =>
    if b < 128 then Char.ofNat b :: decodeUtf8 rest
    else if 194 ≤ b ∧ b < 224 then
      match rest with
      | [] => [replacementChar]
      | b1 :: rest1 =>
        if 128 ≤ b1 ∧ b1 < 192 then
          Char.ofNat ((b - 192) * 64 + (b1 - 128)) :: decodeUtf8 rest1
        else replacementChar :: decodeUtf8 (b1 :: rest1)
    else if 224 ≤ b ∧ b < 240 then
      match rest with
      | [] => [replacementChar]
      | b1 :: rest1 =>
        if (128 ≤ b1 ∧ b1 < 192) ∧ (b ≠ 224 ∨ 160 ≤ b1) ∧ (b ≠ 237 ∨ b1 < 160) then
          match rest1 with
          | [] => [replacementChar]
          | b2 :: rest2 =>
            if 128 ≤ b2 ∧ b2 < 192 then
              Char.ofNat ((b - 224) * 4096 + (b1 - 128) * 64 + (b2 - 128)) :: decodeUtf8 rest2
            else replacementChar :: decodeUtf8 (b2 :: rest2)
        else replacementChar :: decodeUtf8 (b1 :: rest1)
    else if 240 ≤ b ∧ b < 245 then
      match rest with
      | [] => [replacementChar]
      | b1 :: rest1 =>
        if (128 ≤ b1 ∧ b1 < 192) ∧ (b ≠ 240 ∨ 144 ≤ b1) ∧ (b ≠ 244 ∨ b1 < 144) then
          match rest1 with
          | [] => [replacementChar]
          | b2 :: rest2 =>
            if 128 ≤ b2 ∧ b2 < 192 then
              match rest2 with
              | [] => [replacementChar]
              | b3 :: rest3 =>
                if 128 ≤ b3 ∧ b3 < 192 then
                  Char.ofNat ((b - 240) * 262144 + (b1 - 128) * 4096 + (b2 - 128) * 64 + (b3 - 128))
                    :: decodeUtf8 rest3
                else replacementChar :: decodeUtf8 (b3 :: rest3)
            else replacementChar :: decodeUtf8 (b2 :: rest2)
        else replacementChar :: decodeUtf8 (b1 :: rest1)
    else replacementChar :: decodeUtf8 rest

/-- Composition on line 130 of the source: decode the content field from
base64 to bytes, then interpret the bytes as UTF-8 text. -/
def bufferBase64ToUtf8 (s : String) : String := (decodeUtf8 (base64Decode s)).asString

/-- Shape of GitHubFileContentSchema (lines 13 to 25): every field required,
strings except the numeric size. -/
structure GitHubFileContent where
  type : String
  encoding : String
  size : Int
  name : String
  path : String
  content : String
  sha : String
  url : String
  git_url : String
  html_url : String
  download_url : String

/-- Shape of GitHubDirectoryContentSchema (lines 27 to 37): like the file
shape without encoding and content, and with a nullable download_url. -/
structure GitHubDirectoryContent where
  type : String
  size : Int
  name : String
  path : String
  sha : String
  url : String
  git_url : String
  html_url : String
  download_url : Option String

/-- Result of GitHubContentSchema, the union of a file object and an array
of directory entries (lines 39 to 42). -/
inductive GitHubContent where
  | file (entry : GitHubFileContent)
  | dir (entries : List GitHubDirectoryContent)

/-- Zod string validator: accepts exactly JSON strings. -/
def asString : Json → Option String
  | .str s => some s
  | _ => none

/-- Zod number validator: accepts exactly JSON numbers. -/
def asNumber : Json → Option Int
  | .num n => some n
  | _ => none

/-- Zod nullable string validator: accepts a string or null. -/
def asStringOrNull : Json → Option (Option String)
  | .str s => some (some s)
  | .null => some none
  | _ => none

/-- Translation of GitHubFileContentSchema.parse: requires a JSON object
with every declared field present and of the declared type; unknown extra
fields are ignored, as zod strips them by default. -/
def parseFileContent (j : Json) : Option GitHubFileContent :=
  match j with
  | .obj _ => do
    let type ← j.lookup "type" >>= asString
    let encoding ← j.lookup "encoding" >>= asString
    let size ← j.lookup "size" >>= asNumber
    let name ← j.lookup "name" >>= asString
    let path ← j.lookup "path" >>= asString
    let content ← j.lookup "content" >>= asString
    let sha ← j.lookup "sha" >>= asString
    let url ← j.lookup "url" >>= asString
    let git_url ← j.lookup "git_url" >>= asString
    let html_url ← j.lookup "html_url" >>= asString
    let download_url ← j.lookup "download_url" >>= asString
    pure { type, encoding, size, name, path, content, sha, url, git_url,
           html_url, download_url }
  | _ => none

/-- Translation of GitHubDirectoryContentSchema.parse. -/
def parseDirContent (j : Json) : Option GitHubDirectoryContent :=
  match j with
  | .obj _ => do
    let type ← j.lookup "type" >>= asString
    let size ← j.lookup "size" >>= asNumber
    let name ← j.lookup "name" >>= asString
    let path ← j.lookup "path" >>= asString
    let sha ← j.lookup "sha" >>= asString
    let url ← j.lookup "url" >>= asString
    let git_url ← j.lookup "git_url" >>= asString
    let html_url ← j.lookup "html_url" >>= asString
    let download_url ← j.lookup "download_url" >>= asStringOrNull
    pure { type, size, name, path, sha, url, git_url, html_url, download_url }
  | _ => none

/-- Translation of GitHubContentSchema.parse: a zod union tries its members
in order, here the file object shape first and then the array of directory
entries; none models the thrown ZodError. -/
def parseGitHubContent (j : Json) : Option GitHubContent :=
  match parseFileContent j with
  | some entry => some (.file entry)
  | none =>
    match j with
    | .arr elems => (elems.mapM parseDirContent).map GitHubContent.dir
    | _ => none

/-- JSON serialization of a file entry, with exactly the schema fields. -/
def fileEntryJson (f : GitHubFileContent) : Json :=
  .obj [("type", .str f.type), ("encoding", .str f.encoding), ("size", .num f.size),
        ("name", .str f.name), ("path", .str f.path), ("content", .str f.content),
        ("sha", .str f.sha), ("url", .str f.url), ("git_url", .str f.git_url),
        ("html_url", .str f.html_url), ("download_url", .str f.download_url)]

/-- Errors thrown by the content operations, tagged by throw site following
the error taxonomy of the specification. The source throws plain Error
values; the constructor records which of the three throw sites produced it
and the message it carried. The message of a zod validation failure is not
modelled beyond being a schema validation error. -/
inductive SrvError where
  | githubApi (message : String)
  | schemaValidation (message : String)
  | invalidInput (message : String)

/-- Normalization on line 103 of the source: an array body is returned as
is, any other body is wrapped into a one element array. -/
def jsonToEntries (j : Json) : List Json :=
  match j with
  | .arr elems => elems
  | _ => [j]

/-- Translation of listFiles (lines 84 to 104): build the URL, perform one
fetch, throw a GitHub API error carrying the status text on a non 2xx
status, otherwise normalize the parsed body to an entry list. The second
component is the list of URLs fetched: the outbound call log. -/
def listFiles (config : GithubRepoServerParams) (path : String) (fetch : Fetch) :
    Except SrvError (List Json) × List String :=
  let url := listFilesUrl config path
  let response := fetch url (requestHeaders config)
  if response.ok then
    (.ok (jsonToEntries response.body), [url])
  else
    (.error (.githubApi ("GitHub API error: " ++ response.statusText)), [url])

/-- Translation of getFileContent (lines 106 to 131): same URL and headers
as listFiles, throw on a non 2xx status, validate the body against the
content union schema, reject a directory result, and decode the content
field from base64 as UTF-8 text. -/
def getFileContent (config : GithubRepoServerParams) (path : String) (fetch : Fetch) :
    Except SrvError String × List String :=
  let url := getFileContentUrl config path
  let response := fetch url (requestHeaders config)
  if response.ok then
    match parseGitHubContent response.body with
    | none =>
      (.error (.schemaValidation "response body does not match GitHubContentSchema"), [url])
    | some (.dir _) =>
      (.error (.invalidInput "Path points to a directory, not a file"), [url])
    | some (.file entry) =>
      (.ok (bufferBase64ToUtf8 entry.content), [url])
  else
    (.error (.githubApi ("GitHub API error: " ++ response.statusText)), [url])

/-- Resource descriptor returned by the list resources handler. -/
structure Resource where
  uri : String
  mimeType : String
  name : String

/-- Strict comparison file.type with the string "file" (line 140): true
exactly when the type field is present and is the JSON string "file". -/
def isTypeFile (j : Json) : Bool :=
  match j.lookup "type" with
  | some (.str t) => t == "file"
  | _ => false

/-- Projection of one entry to a resource descriptor (lines 137 to 142). -/
def entryDescriptor (config : GithubRepoServerParams) (entry : Json) : Resource :=
  { uri := resolveUrl (resourceBaseUrl config) (jsFieldString entry "path")
  , mimeType := if isTypeFile entry then "text/plain" else "application/x-directory"
  , name := jsFieldString entry "path" }

/-- Translation of the ListResourcesRequestSchema handler (lines 133 to
144): list the repository root and map every entry to its descriptor. -/
def listResourcesHandler (config : GithubRepoServerParams) (fetch : Fetch) :
    Except SrvError (List Resource) × List String :=
  match listFiles config "" fetch with
  | (.ok files, log) => (.ok (files.map (entryDescriptor config)), log)
  | (.error e, log) => (.error e, log)

/-- Locate the first occurrence of the separator in a character list: the
part before it and the part after it, or none when it does not occur. -/
def findSplit (sep : List Char) : List Char → Option (List Char × List Char)
  | [] => none
  | c :: rest =>
    if sep.isPrefixOf (c :: rest) then some ([], (c :: rest).drop sep.length)
    else
      match findSplit sep rest with
      | some (before, after) => some (c :: before, after)
      | none => none

/-- Repeated splitting with fuel; any fuel at least the list length gives
the fixed point, so the zero fuel arm is never reached from jsSplitList. -/
def jsSplitAux (sep : List Char) : Nat → List Char → List (List Char)
  | 0, s => [s]
  | fuel + 1, s =>
    match findSplit sep s with
    | none => [s]
    | some (before, after) => before :: jsSplitAux sep fuel after

/-- Splitting a character list on every occurrence of the separator. -/
def jsSplitList (sep s : List Char) : List (List Char) := jsSplitAux sep s.length s

/-- Model of the JavaScript String.prototype.split with a nonempty string
separator: the segments between consecutive occurrences, in order. -/
def jsSplit (sep s : String) : List String := (jsSplitList sep.data s.data).map List.asString

/-- The separator used by the read resource handler. -/
def sepContents : List Char := "/contents/".data

/-- Line 148 of the source: index one of splitting the path component of the
request URI on the contents separator; none models JavaScript undefined when
the separator does not occur. -/
def readResourcePath (pathname : String) : Option String :=
  (jsSplit "/contents/" pathname)[1]?

/-- The path value actually passed to getFileContent on line 150: JavaScript
undefined interpolates into the URL template as the text "undefined". -/
def readResourceSentPath (pathname : String) : String :=
  (readResourcePath pathname).getD "undefined"

/-- One element of the contents array of a read resource response. -/
structure ResourceContents where
  uri : String
  mimeType : String
  text : String

/-- Read resource response shape: a contents array (lines 152 to 160). -/
structure ReadResourceResult where
  contents : List ResourceContents

/-- Translation of the ReadResourceRequestSchema handler (lines 146 to 161).
The pathname argument models the path component of the request URI as
produced by the WHATWG URL parser, supplied as a separate input since URL
parsing is a platform operation. -/
def readResourceHandler (config : GithubRepoServerParams) (uri pathname : String)
    (fetch : Fetch) : Except SrvError ReadResourceResult × List String :=
  let path := readResourceSentPath pathname
  match getFileContent config path fetch with
  | (.ok text, log) =>
    (.ok { contents := [{ uri := uri, mimeType := "text/plain", text := text }] }, log)
  | (.error e, log) => (.error e, log)

/-- Stated from the specification words for the read resource claim: the
repository relative path is everything after the first occurrence of the
literal substring of the separator in the path component. -/
def specPathAfterContents (pathname : String) : Option String :=
  (findSplit sepContents pathname.data).map fun pr => pr.2.asString

/-- Stated from the specification words for the URL claim: the plain
contents URL template without any query parameter. -/
def plainContentsUrl (owner repo path : String) : String :=
  "https://api.github.com/repos/" ++ owner ++ "/" ++ repo ++ "/contents/" ++ path

/-- Concrete configuration used by the witnesses. -/
def cfgW : GithubRepoServerParams :=
  { githubPersonalAccessToken := "token", owner := "acme", repo := "widgets",
    branch := none }

/-- Concrete directory entry body used by the directory rejection witness. -/
def dirEntryJsonW : Json :=
  .obj [("type", .str "dir"), ("size", .num 0), ("name", .str "src"),
        ("path", .str "src"), ("sha", .str "abc"), ("url", .str "u"),
        ("git_url", .str "g"), ("html_url", .str "h"), ("download_url", .null)]

/-- Concrete file entry used by the decoding witnesses: the content field is
the base64 text of "hello world", while the declared encoding field lies and
the type field is not file, exercising that neither is consulted. -/
def fileEntryW : GitHubFileContent :=
  { type := "dir", encoding := "base16", size := 11, name := "README.md",
    path := "README.md", content := "aGVsbG8gd29ybGQ=", sha := "abc",
    url := "u", git_url := "g", html_url := "h", download_url := "d" }

/-- Concrete parsed directory entry matching dirEntryJsonW. -/
def dirEntryW : GitHubDirectoryContent :=
  { type := "dir", size := 0, name := "src", path := "src", sha := "abc",
    url := "u", git_url := "g", html_url := "h", download_url := none }

/-- Concrete configuration with a nonempty branch, for the URL witnesses. -/
def cfgBranchW : GithubRepoServerParams :=
  { githubPersonalAccessToken := "token", owner := "acme", repo := "widgets",
    branch := some "dev" }

/-- Successful response whose body is an array of one directory entry. -/
def respArrW : HttpResponse := ⟨200, "OK", .arr [dirEntryJsonW]⟩

/-- Successful response whose body is a single JSON object. -/
def respObjW : HttpResponse := ⟨200, "OK", .obj [("type", .str "file")]⟩

/-- Successful response whose body is the file entry fixture. -/
def respFileW : HttpResponse := ⟨200, "OK", fileEntryJson fileEntryW⟩

/-- Failed response with status 404 and status text Not Found. -/
def resp404W : HttpResponse := ⟨404, "Not Found", .null⟩

/-- Path component prefix used by the read resource witness. -/
def preW : List Char := "/repos/acme/widgets".data

/-- Repository relative path used by the read resource witness. -/
def sufW : List Char := "src/index.ts".data

/-- Resource URI used by the read resource witness. -/
def uriW : String := "https://api.github.com/repos/acme/widgets/contents/src/index.ts"

/-- Decoding a sextet character of the alphabet recovers its value. -/
theorem sextetChar_val : ∀ n, n < 64 → base64CharVal (sextetChar n) = some n := by decide

/-- Padding is outside the alphabet and is skipped by the decoder. -/
theorem base64CharVal_pad : base64CharVal '=' = none := by decide

/-- Decoding the sextet stream of an encoded byte list recovers the bytes. -/
theorem decodeQuads_encode (bytes : List Nat) (h : ∀ b ∈ bytes, b < 256) :
    base64DecodeQuads ((base64EncodeList bytes).filterMap base64CharVal) = bytes := by
  induction bytes using base64EncodeList.induct with
  | case1 b0 b1 b2 rest ih =>
    have hb0 : b0 < 256 := h b0 (by simp)
    have hb1 : b1 < 256 := h b1 (by simp)
    have hb2 : b2 < 256 := h b2 (by simp)
    have e0 := sextetChar_val (b0 / 4) (by omega)
    have e1 := sextetChar_val ((b0 % 4) * 16 + b1 / 16) (by omega)
    have e2 := sextetChar_val ((b1 % 16) * 4 + b2 / 64) (by omega)
    have e3 := sextetChar_val (b2 % 64) (by omega)
    simp only [base64EncodeList, List.filterMap_cons, e0, e1, e2, e3, base64DecodeQuads]
    rw [ih (fun b hb => h b (by simp [hb]))]
    simp only [List.cons.injEq, and_true]
    omega
  | case2 b0 b1 =>
    have hb0 : b0 < 256 := h b0 (by simp)
    have hb1 : b1 < 256 := h b1 (by simp)
    have e0 := sextetChar_val (b0 / 4) (by omega)
    have e1 := sextetChar_val ((b0 % 4) * 16 + b1 / 16) (by omega)
    have e2 := sextetChar_val ((b1 % 16) * 4) (by omega)
    simp only [base64EncodeList, List.filterMap_cons, e0, e1, e2, base64CharVal_pad,
      List.filterMap_nil, base64DecodeQuads]
    simp only [List.cons.injEq, and_true]
    omega
  | case3 b0 =>
    have hb0 : b0 < 256 := h b0 (by simp)
    have e0 := sextetChar_val (b0 / 4) (by omega)
    have e1 := sextetChar_val ((b0 % 4) * 16) (by omega)
    simp only [base64EncodeList, List.filterMap_cons, e0, e1, base64CharVal_pad,
      List.filterMap_nil, base64DecodeQuads]
    simp only [List.cons.injEq, and_true]
    omega
  | case4 => rfl

/-- Base64 round trip on byte lists. -/
theorem base64_roundtrip (bytes : List Nat) (h : ∀ b ∈ bytes, b < 256) :
    base64Decode (base64Encode bytes) = bytes := by
  show base64DecodeQuads (((base64EncodeList bytes).asString).data.filterMap base64CharVal)
      = bytes
  exact decodeQuads_encode bytes h

/-- UTF-8 encoding emits bytes. -/
theorem utf8EncodeChar_lt (c : Char) : ∀ b ∈ utf8EncodeChar c, b < 256 := by
  have hv : c.toNat < 55296 ∨ (57343 < c.toNat ∧ c.toNat < 1114112) := c.valid
  intro b hb
  simp only [utf8EncodeChar] at hb
  split at hb
  · simp at hb; omega
  · split at hb
    · simp at hb; rcases hb with hb | hb <;> omega
    · split at hb
      · simp at hb; rcases hb with hb | hb | hb <;> omega
      · simp at hb; rcases hb with hb | hb | hb | hb <;> omega

/-- UTF-8 encoding of a character list emits bytes. -/
theorem utf8EncodeList_lt (l : List Char) : ∀ b ∈ utf8EncodeList l, b < 256 := by
  induction l with
  | nil => simp [utf8EncodeList]
  | cons c rest ih =>
    intro b hb
    simp only [utf8EncodeList, List.mem_append] at hb
    rcases hb with hb | hb
    · exact utf8EncodeChar_lt c b hb
    · exact ih b hb

/-- The lossy decoder inverts the encoder on one character, for any tail. -/
theorem decodeUtf8_encodeChar (c : Char) (tail : List Nat) :
    decodeUtf8 (utf8EncodeChar c ++ tail) = c :: decodeUtf8 tail := by
  have hv : c.toNat < 55296 ∨ (57343 < c.toNat ∧ c.toNat < 1114112) := c.valid
  have hofn := Char.ofNat_toNat c
  by_cases h1 : c.toNat < 128
  · simp only [utf8EncodeChar, if_pos h1, List.cons_append, List.nil_append]
    rw [decodeUtf8.eq_def]
    simp only [if_pos h1, hofn]
  · by_cases h2 : c.toNat < 2048
    · simp only [utf8EncodeChar, if_neg h1, if_pos h2, List.cons_append, List.nil_append]
      have c1 : ¬ (192 + c.toNat / 64 < 128) := by omega
      have c2 : 194 ≤ 192 + c.toNat / 64 ∧ 192 + c.toNat / 64 < 224 := by omega
      have c3 : 128 ≤ 128 + c.toNat % 64 ∧ 128 + c.toNat % 64 < 192 := by omega
      rw [decodeUtf8.eq_def]
      simp only [if_neg c1, if_pos c2, if_pos c3]
      have harg : (192 + c.toNat / 64 - 192) * 64 + (128 + c.toNat % 64 - 128) = c.toNat := by
        omega
      rw [harg, hofn]
    · by_cases h3 : c.toNat < 65536
      · simp only [utf8EncodeChar, if_neg h1, if_neg h2, if_pos h3, List.cons_append,
          List.nil_append]
        have d1 : ¬ (224 + c.toNat / 4096 < 128) := by omega
        have d2 : ¬ (194 ≤ 224 + c.toNat / 4096 ∧ 224 + c.toNat / 4096 < 224) := by omega
        have d3 : 224 ≤ 224 + c.toNat / 4096 ∧ 224 + c.toNat / 4096 < 240 := by omega
        have d4 : (128 ≤ 128 + (c.toNat / 64) % 64 ∧ 128 + (c.toNat / 64) % 64 < 192) ∧
            (224 + c.toNat / 4096 ≠ 224 ∨ 160 ≤ 128 + (c.toNat / 64) % 64) ∧
            (224 + c.toNat / 4096 ≠ 237 ∨ 128 + (c.toNat / 64) % 64 < 160) := by omega
        have d5 : 128 ≤ 128 + c.toNat % 64 ∧ 128 + c.toNat % 64 < 192 := by omega
        rw [decodeUtf8.eq_def]
        simp only [if_neg d1, if_neg d2, if_pos d3, if_pos d4, if_pos d5]
        have harg : (224 + c.toNat / 4096 - 224) * 4096 + (128 + (c.toNat / 64) % 64 - 128) * 64
            + (128 + c.toNat % 64 - 128) = c.toNat := by omega
        rw [harg, hofn]
      · simp only [utf8EncodeChar, if_neg h1, if_neg h2, if_neg h3, List.cons_append,
          List.nil_append]
        have e1 : ¬ (240 + c.toNat / 262144 < 128) := by omega
        have e2 : ¬ (194 ≤ 240 + c.toNat / 262144 ∧ 240 + c.toNat / 262144 < 224) := by omega
        have e3 : ¬ (224 ≤ 240 + c.toNat / 262144 ∧ 240 + c.toNat / 262144 < 240) := by omega
        have e4 : 240 ≤ 240 + c.toNat / 262144 ∧ 240 + c.toNat / 262144 < 245 := by omega
        have e5 : (128 ≤ 128 + (c.toNat / 4096) % 64 ∧ 128 + (c.toNat / 4096) % 64 < 192) ∧
            (240 + c.toNat / 262144 ≠ 240 ∨ 144 ≤ 128 + (c.toNat / 4096) % 64) ∧
            (240 + c.toNat / 262144 ≠ 244 ∨ 128 + (c.toNat / 4096) % 64 < 144) := by omega
        have e6 : 128 ≤ 128 + (c.toNat / 64) % 64 ∧ 128 + (c.toNat / 64) % 64 < 192 := by omega
        have e7 : 128 ≤ 128 + c.toNat % 64 ∧ 128 + c.toNat % 64 < 192 := by omega
        rw [decodeUtf8.eq_def]
        simp only [if_neg e1, if_neg e2, if_neg e3, if_pos e4, if_pos e5, if_pos e6, if_pos e7]
        have harg : (240 + c.toNat / 262144 - 240) * 262144
            + (128 + (c.toNat / 4096) % 64 - 128) * 4096
            + (128 + (c.toNat / 64) % 64 - 128) * 64 + (128 + c.toNat % 64 - 128) = c.toNat := by
          omega
        rw [harg, hofn]

/-- The lossy decoder inverts the encoder on character lists. -/
theorem decodeUtf8_encodeList (l : List Char) : decodeUtf8 (utf8EncodeList l) = l := by
  induction l with
  | nil => rfl
  | cons c rest ih =>
    rw [show utf8EncodeList (c :: rest) = utf8EncodeChar c ++ utf8EncodeList rest from rfl,
      decodeUtf8_encodeChar, ih]

/-- UTF-8 round trip on strings. -/
theorem utf8_decode_encode (s : String) : (decodeUtf8 (utf8Encode s)).asString = s := by
  cases s with
  | mk data =>
    show (decodeUtf8 (utf8EncodeList data)).asString = String.mk data
    rw [decodeUtf8_encodeList]
    rfl

/-- Full pipeline round trip: base64 decoding then UTF-8 decoding inverts
UTF-8 encoding then base64 encoding, for every string. -/
theorem bufferBase64ToUtf8_roundtrip (s : String) :
    bufferBase64ToUtf8 (base64Encode (utf8Encode s)) = s := by
  unfold bufferBase64ToUtf8
  rw [base64_roundtrip (utf8Encode s) (utf8EncodeList_lt s.data)]
  exact utf8_decode_encode s

/-- The separator occurs at the head: findSplit returns the empty part
before it and the tail after it. -/
theorem findSplit_here (a : Char) (sep₀ suffix : List Char) :
    findSplit (a :: sep₀) ((a :: sep₀) ++ suffix) = some ([], suffix) := by
  have hpre : (a :: sep₀).isPrefixOf ((a :: sep₀) ++ suffix) = true := by
    simp [List.isPrefixOf_iff_prefix]
  show findSplit (a :: sep₀) (a :: (sep₀ ++ suffix)) = some ([], suffix)
  rw [findSplit.eq_def]
  simp only [List.cons_append] at hpre
  simp only [hpre, if_true, List.length_cons, List.drop_succ_cons]
  rw [List.drop_left]

/-- When no occurrence of the separator starts before the marked position,
findSplit locates the marked occurrence. -/
theorem findSplit_first (sep : List Char) (hsep : sep ≠ []) (pre suffix : List Char)
    (h : ∀ i, i < pre.length → sep.isPrefixOf ((pre ++ (sep ++ suffix)).drop i) = false) :
    findSplit sep (pre ++ (sep ++ suffix)) = some (pre, suffix) := by
  induction pre with
  | nil =>
    cases sep with
    | nil => exact absurd rfl hsep
    | cons a sep₀ => simpa using findSplit_here a sep₀ suffix
  | cons c pre ih =>
    have h0 : sep.isPrefixOf (c :: (pre ++ (sep ++ suffix))) = false := by
      have := h 0 (by simp)
      simpa using this
    show findSplit sep (c :: (pre ++ (sep ++ suffix))) = some (c :: pre, suffix)
    rw [findSplit.eq_def]
    simp only [h0, Bool.false_eq_true, if_false]
    rw [ih (fun i hi => by
      have := h (i + 1) (by simp; omega)
      simpa using this)]

/-- When the separator occurs nowhere in the list, findSplit returns none. -/
theorem findSplit_none (sep s : List Char)
    (h : ∀ i, sep.isPrefixOf (s.drop i) = false) : findSplit sep s = none := by
  induction s with
  | nil => rfl
  | cons c rest ih =>
    have h0 : sep.isPrefixOf (c :: rest) = false := by simpa using h 0
    rw [findSplit.eq_def]
    simp only [h0, Bool.false_eq_true, if_false]
    rw [ih (fun i => by simpa using h (i + 1))]

/-- A successful findSplit strictly shrinks the remainder. -/
theorem findSplit_shrink (sep : List Char) (hsep : sep ≠ []) :
    ∀ s before after, findSplit sep s = some (before, after) → after.length < s.length := by
  intro s
  induction s with
  | nil => intro _ _ h; simp [findSplit] at h
  | cons c rest ih =>
    intro before after h
    have hlen : 0 < sep.length := List.length_pos.mpr hsep
    rw [findSplit.eq_def] at h
    by_cases hp : sep.isPrefixOf (c :: rest) = true
    · simp only [hp, if_true, Option.some.injEq, Prod.mk.injEq] at h
      obtain ⟨-, h2⟩ := h
      subst h2
      simp only [List.length_drop, List.length_cons]
      omega
    · have hp₀ : sep.isPrefixOf (c :: rest) = false := by
        cases hb : sep.isPrefixOf (c :: rest) with
        | false => rfl
        | true => exact absurd hb hp
      simp only [hp₀, Bool.false_eq_true, if_false] at h
      cases hfs : findSplit sep rest with
      | none => simp [hfs] at h
      | some pr =>
        obtain ⟨before₀, after₀⟩ := pr
        simp only [hfs, Option.some.injEq, Prod.mk.injEq] at h
        obtain ⟨-, h2⟩ := h
        subst h2
        have := ih before₀ after₀ hfs
        simp only [List.length_cons]
        omega

/-- The split accumulator does not depend on the fuel, once the fuel covers
the list length. -/
theorem jsSplitAux_fuel (sep : List Char) (hsep : sep ≠ []) :
    ∀ fuel₁ fuel₂ s, s.length ≤ fuel₁ → s.length ≤ fuel₂ →
      jsSplitAux sep fuel₁ s = jsSplitAux sep fuel₂ s := by
  intro fuel₁
  induction fuel₁ with
  | zero =>
    intro fuel₂ s h1 _
    have hs : s = [] := by
      cases s with
      | nil => rfl
      | cons c rest => simp at h1
    subst hs
    cases fuel₂ with
    | zero => rfl
    | succ g => simp [jsSplitAux, findSplit]
  | succ f ih =>
    intro fuel₂ s h1 h2
    cases fuel₂ with
    | zero =>
      have hs : s = [] := by
        cases s with
        | nil => rfl
        | cons c rest => simp at h2
      subst hs
      simp [jsSplitAux, findSplit]
    | succ g =>
      simp only [jsSplitAux]
      cases hfs : findSplit sep s with
      | none => simp only [hfs]
      | some pr =>
        obtain ⟨before, after⟩ := pr
        have hlt := findSplit_shrink sep hsep s before after hfs
        simp only [hfs]
        rw [ih g after (by omega) (by omega)]

/-- One splitting step of jsSplitList at a located occurrence. -/
theorem jsSplitList_cons (sep : List Char) (hsep : sep ≠ []) (s before after : List Char)
    (h : findSplit sep s = some (before, after)) :
    jsSplitList sep s = before :: jsSplitList sep after := by
  have hs : s ≠ [] := by
    intro e
    subst e
    simp [findSplit] at h
  have hlt := findSplit_shrink sep hsep s before after h
  obtain ⟨n, hn⟩ : ∃ n, s.length = n + 1 := by
    cases s with
    | nil => exact absurd rfl hs
    | cons c rest => exact ⟨rest.length, by simp⟩
  unfold jsSplitList
  rw [hn]
  simp only [jsSplitAux, h]
  rw [jsSplitAux_fuel sep hsep n after.length after (by omega) (le_refl _)]

/-- jsSplitList on a list without any occurrence of the separator. -/
theorem jsSplitList_single (sep s : List Char) (h : findSplit sep s = none) :
    jsSplitList sep s = [s] := by
  unfold jsSplitList
  cases hl : s.length with
  | zero => simp [jsSplitAux]
  | succ n => simp [jsSplitAux, h]

/-- Dropping at least the whole list leaves nothing for a nonempty
separator to be a prefix of. -/
theorem isPrefixOf_drop_ge (sep : List Char) (hsep : sep ≠ []) (s : List Char) (i : Nat)
    (h : s.length ≤ i) : sep.isPrefixOf (s.drop i) = false := by
  rw [List.drop_eq_nil_of_le h]
  cases sep with
  | nil => exact absurd rfl hsep
  | cons a sep₀ => rfl

/-- Serializing a file entry and validating it against the content union
schema recovers the entry, whatever its type and encoding fields hold. -/
theorem parse_fileEntryJson (f : GitHubFileContent) :
    parseGitHubContent (fileEntryJson f) = some (.file f) := rfl

/-- C2: createGithubRepoServer validates accessToken, owner, and repo in
that order and fails on the first empty one with a message naming that
field; with all three nonempty it returns a server instance. Construction
in this embedding is a pure function of the parameters alone, so no network
call can occur. -/
theorem createServer_validation_order (tok ow rp : String) (br : Option String) :
    (tok = "" →
      createGithubRepoServer ⟨tok, ow, rp, br⟩ =
        .error "githubPersonalAccessToken is required") ∧
    (tok ≠ "" → ow = "" →
      createGithubRepoServer ⟨tok, ow, rp, br⟩ = .error "owner is required") ∧
    (tok ≠ "" → ow ≠ "" → rp = "" →
      createGithubRepoServer ⟨tok, ow, rp, br⟩ = .error "repo is required") ∧
    (tok ≠ "" → ow ≠ "" → rp ≠ "" →
      createGithubRepoServer ⟨tok, ow, rp, br⟩ =
        .ok { serverName := "@loglm/mcp-server-github-repo", version := "0.1.0",
              capabilities := ["resources", "tools"], config := ⟨tok, ow, rp, br⟩ }) := by
  refine ⟨?_, ?_, ?_, ?_⟩ <;> intros <;> simp_all [createGithubRepoServer]

/-- C2 witness: the four validation outcomes at concrete parameters. -/
theorem createServer_validation_order_witness :
    createGithubRepoServer ⟨"", "acme", "widgets", none⟩ =
      .error "githubPersonalAccessToken is required" ∧
    createGithubRepoServer ⟨"token", "", "widgets", none⟩ = .error "owner is required" ∧
    createGithubRepoServer ⟨"token", "acme", "", none⟩ = .error "repo is required" ∧
    createGithubRepoServer ⟨"token", "acme", "widgets", none⟩ =
      .ok { serverName := "@loglm/mcp-server-github-repo", version := "0.1.0",
            capabilities := ["resources", "tools"],
            config := ⟨"token", "acme", "widgets", none⟩ } :=
  ⟨(createServer_validation_order "" "acme" "widgets" none).1 rfl,
   (createServer_validation_order "token" "" "widgets" none).2.1 (by decide) rfl,
   (createServer_validation_order "token" "acme" "" none).2.2.1 (by decide) (by decide) rfl,
   (createServer_validation_order "token" "acme" "widgets" none).2.2.2
     (by decide) (by decide) (by decide)⟩

/-- C3: on every successful forge response, listFiles returns a JSON array
body as the ordered entry sequence unchanged, and wraps a single JSON
object body into a one element sequence containing exactly that object. -/
theorem listFiles_normalization (config : GithubRepoServerParams) (path : String)
    (resp : HttpResponse) (hok : resp.ok = true) :
    (∀ elems, resp.body = .arr elems →
      listFiles config path (constFetch resp) = (.ok elems, [listFilesUrl config path])) ∧
    (∀ fields, resp.body = .obj fields →
      listFiles config path (constFetch resp) =
        (.ok [.obj fields], [listFilesUrl config path])) := by
  constructor <;> intro x hx <;> simp [listFiles, constFetch, hok, jsonToEntries, hx]

/-- C3 witness: an array body passes through, an object body is wrapped. -/
theorem listFiles_normalization_witness :
    listFiles cfgW "" (constFetch respArrW) = (.ok [dirEntryJsonW], [listFilesUrl cfgW ""]) ∧
    listFiles cfgW "" (constFetch respObjW) =
      (.ok [.obj [("type", .str "file")]], [listFilesUrl cfgW ""]) :=
  ⟨(listFiles_normalization cfgW "" respArrW rfl).1 [dirEntryJsonW] rfl,
   (listFiles_normalization cfgW "" respObjW rfl).2 [("type", .str "file")] rfl⟩

/-- C5: when the successful response body validates as a JSON array of
directory entries, getFileContent fails with the invalid input error whose
message is exactly the directory message; by the constructor of the result
it is neither a GitHub API error nor a schema validation error. -/
theorem getFileContent_directory_rejection (config : GithubRepoServerParams) (path : String)
    (resp : HttpResponse) (entries : List GitHubDirectoryContent)
    (hok : resp.ok = true) (hparse : parseGitHubContent resp.body = some (.dir entries)) :
    getFileContent config path (constFetch resp) =
      (.error (.invalidInput "Path points to a directory, not a file"),
       [getFileContentUrl config path]) := by
  simp [getFileContent, constFetch, hok, hparse]

/-- C5 witness: a one entry directory listing body is rejected. -/
theorem getFileContent_directory_rejection_witness :
    getFileContent cfgW "src" (constFetch respArrW) =
      (.error (.invalidInput "Path points to a directory, not a file"),
       [getFileContentUrl cfgW "src"]) :=
  getFileContent_directory_rejection cfgW "src" respArrW [dirEntryW] rfl rfl

/-- C6: for every string s, a validated file entry whose content field is
the base64 encoding of the UTF-8 bytes of s decodes back to exactly s. -/
theorem getFileContent_content_roundtrip (config : GithubRepoServerParams) (path s : String)
    (f : GitHubFileContent) (resp : HttpResponse) (hok : resp.ok = true)
    (hbody : resp.body = fileEntryJson f)
    (hcontent : f.content = base64Encode (utf8Encode s)) :
    getFileContent config path (constFetch resp) =
      (.ok s, [getFileContentUrl config path]) := by
  have hparse : parseGitHubContent resp.body = some (.file f) := by
    rw [hbody]
    exact parse_fileEntryJson f
  simp [getFileContent, constFetch, hok, hparse, hcontent, bufferBase64ToUtf8_roundtrip]

/-- C6 witness: the base64 text of "hello world" decodes to "hello world". -/
theorem getFileContent_content_roundtrip_witness :
    getFileContent cfgW "README.md" (constFetch respFileW) =
      (.ok "hello world", [getFileContentUrl cfgW "README.md"]) :=
  getFileContent_content_roundtrip cfgW "README.md" "hello world" fileEntryW respFileW
    rfl rfl (by decide)

/-- C7: both listFiles and getFileContent build the contents URL template
and append the ref query parameter exactly when a branch is configured,
configured meaning present and nonempty as settled by the empty branch
claim; with no branch configured the URL is the plain template with no ref
parameter appended. -/
theorem contentsUrl_branch_parameterization (config : GithubRepoServerParams) (path : String) :
    (∀ b, config.branch = some b → b ≠ "" →
      listFilesUrl config path
        = plainContentsUrl config.owner config.repo path ++ "?ref=" ++ b ∧
      getFileContentUrl config path
        = plainContentsUrl config.owner config.repo path ++ "?ref=" ++ b) ∧
    (config.branch = none →
      listFilesUrl config path = plainContentsUrl config.owner config.repo path ∧
      getFileContentUrl config path = plainContentsUrl config.owner config.repo path) := by
  constructor
  · intro b hb hne
    constructor <;> simp [listFilesUrl, getFileContentUrl, plainContentsUrl, hb, hne]
  · intro hb
    constructor <;> simp [listFilesUrl, getFileContentUrl, plainContentsUrl, hb]

/-- C7 witness: with branch dev the ref parameter is appended for both
operations, with no branch both URLs are the plain template. -/
theorem contentsUrl_branch_parameterization_witness :
    (listFilesUrl cfgBranchW "src"
        = plainContentsUrl "acme" "widgets" "src" ++ "?ref=" ++ "dev" ∧
      getFileContentUrl cfgBranchW "src"
        = plainContentsUrl "acme" "widgets" "src" ++ "?ref=" ++ "dev") ∧
    (listFilesUrl cfgW "src" = plainContentsUrl "acme" "widgets" "src" ∧
      getFileContentUrl cfgW "src" = plainContentsUrl "acme" "widgets" "src") :=
  ⟨(contentsUrl_branch_parameterization cfgBranchW "src").1 "dev" rfl (by decide),
   (contentsUrl_branch_parameterization cfgW "src").2 rfl⟩

/-- C8: on a non 2xx response both operations fail with a GitHub API error
whose message carries the status text, and the outbound call log of each
holds exactly the one URL fetched, so no retry occurs. -/
theorem nonSuccess_status_propagation (config : GithubRepoServerParams) (path : String)
    (resp : HttpResponse) (hok : resp.ok = false) :
    listFiles config path (constFetch resp) =
      (.error (.githubApi ("GitHub API error: " ++ resp.statusText)),
       [listFilesUrl config path]) ∧
    getFileContent config path (constFetch resp) =
      (.error (.githubApi ("GitHub API error: " ++ resp.statusText)),
       [getFileContentUrl config path]) := by
  constructor <;> simp [listFiles, getFileContent, constFetch, hok]

/-- C8 witness: a 404 with status text Not Found fails both operations with
the status text in the message and a single logged call. -/
theorem nonSuccess_status_propagation_witness :
    listFiles cfgW "missing.txt" (constFetch resp404W) =
      (.error (.githubApi ("GitHub API error: " ++ "Not Found")),
       [listFilesUrl cfgW "missing.txt"]) ∧
    getFileContent cfgW "missing.txt" (constFetch resp404W) =
      (.error (.githubApi ("GitHub API error: " ++ "Not Found")),
       [getFileContentUrl cfgW "missing.txt"]) :=
  nonSuccess_status_propagation cfgW "missing.txt" resp404W rfl

/-- C9: a configured branch equal to the empty string is falsy in the
JavaScript truthiness test, so both outbound URLs coincide with the URLs of
an unconfigured branch: no ref parameter is appended. -/
theorem emptyBranch_behaves_as_none (tok ow rp path : String) :
    listFilesUrl ⟨tok, ow, rp, some ""⟩ path = listFilesUrl ⟨tok, ow, rp, none⟩ path ∧
    getFileContentUrl ⟨tok, ow, rp, some ""⟩ path
      = getFileContentUrl ⟨tok, ow, rp, none⟩ path := by
  constructor <;> simp [listFilesUrl, getFileContentUrl]

/-- C10: any response body that passes the file entry shape validation is
decoded as base64 then UTF-8 from its content field alone, whatever its
encoding field declares and whatever its type field holds. -/
theorem getFileContent_ignores_encoding_and_type (config : GithubRepoServerParams)
    (path : String) (resp : HttpResponse) (f : GitHubFileContent) (hok : resp.ok = true)
    (hparse : parseGitHubContent resp.body = some (.file f)) :
    getFileContent config path (constFetch resp) =
      (.ok (bufferBase64ToUtf8 f.content), [getFileContentUrl config path]) := by
  simp [getFileContent, constFetch, hok, hparse]

/-- C10 witness: the fixture declares encoding base16 and type dir, yet the
content field is still decoded as base64 UTF-8 text. -/
theorem getFileContent_ignores_encoding_and_type_witness :
    getFileContent cfgW "README.md" (constFetch respFileW) =
      (.ok (bufferBase64ToUtf8 "aGVsbG8gd29ybGQ="), [getFileContentUrl cfgW "README.md"]) :=
  getFileContent_ignores_encoding_and_type cfgW "README.md" respFileW fileEntryW rfl
    (parse_fileEntryJson fileEntryW)

/-- C4: on every successful root listing, the handler returns one resource
descriptor per normalized entry, in the same order; for an entry whose path
field is the string p the descriptor has uri equal to p resolved against
the content base URL, mimeType text/plain exactly when the type field
equals the string file and the directory mime type for every other type
value, and name equal to p. -/
theorem listResources_descriptors (config : GithubRepoServerParams) (resp : HttpResponse)
    (hok : resp.ok = true) :
    ∃ rs, (listResourcesHandler config (constFetch resp)).1 = .ok rs ∧
      rs.length = (jsonToEntries resp.body).length ∧
      ∀ i (h : i < (jsonToEntries resp.body).length) (p : String),
        ((jsonToEntries resp.body)[i]).lookup "path" = some (.str p) →
        rs[i]? = some
          { uri := resolveUrl (resourceBaseUrl config) p
          , mimeType := if isTypeFile (jsonToEntries resp.body)[i] then "text/plain"
              else "application/x-directory"
          , name := p } := by
  refine ⟨(jsonToEntries resp.body).map (entryDescriptor config), ?_, by simp, ?_⟩
  · simp [listResourcesHandler, listFiles, constFetch, hok]
  · intro i h p hp
    rw [List.getElem?_map, List.getElem?_eq_getElem h]
    simp [entryDescriptor, jsFieldString, hp, Json.jsToString]

/-- C4 witness: the descriptor shape at a concrete directory listing. -/
theorem listResources_descriptors_witness :
    ∃ rs, (listResourcesHandler cfgW (constFetch respArrW)).1 = .ok rs ∧
      rs.length = (jsonToEntries respArrW.body).length ∧
      ∀ i (h : i < (jsonToEntries respArrW.body).length) (p : String),
        ((jsonToEntries respArrW.body)[i]).lookup "path" = some (.str p) →
        rs[i]? = some
          { uri := resolveUrl (resourceBaseUrl cfgW) p
          , mimeType := if isTypeFile (jsonToEntries respArrW.body)[i] then "text/plain"
              else "application/x-directory"
          , name := p } :=
  listResources_descriptors cfgW respArrW rfl

/-- C1 (amended): when the path component of the request URI decomposes as
pre, then the separator, then suffix, with no occurrence of the separator
starting inside pre and none inside suffix (so the separator occurs exactly
once), the path sent to getFileContent is exactly suffix, and the uri field
of a successful response equals the input URI unchanged. In general the
sent path is the segment between the first occurrence of the separator and
the next one, not everything after the first occurrence. -/
theorem readResource_path_extraction (config : GithubRepoServerParams) (uri : String)
    (pre suffix : List Char)
    (hpre : ∀ i, i < pre.length →
      sepContents.isPrefixOf ((pre ++ (sepContents ++ suffix)).drop i) = false)
    (hsuf : ∀ i, i < suffix.length → sepContents.isPrefixOf (suffix.drop i) = false) :
    readResourceSentPath (pre ++ (sepContents ++ suffix)).asString = suffix.asString ∧
    ∀ (fetch : Fetch) (res : ReadResourceResult),
      (readResourceHandler config uri (pre ++ (sepContents ++ suffix)).asString fetch).1
        = .ok res →
      res.contents.map (fun rc => rc.uri) = [uri] := by
  have hsep : sepContents ≠ [] := by decide
  have hsuf₂ : ∀ i, sepContents.isPrefixOf (suffix.drop i) = false := by
    intro i
    by_cases hi : i < suffix.length
    · exact hsuf i hi
    · exact isPrefixOf_drop_ge sepContents hsep suffix i (by omega)
  have h1 : findSplit sepContents (pre ++ (sepContents ++ suffix)) = some (pre, suffix) :=
    findSplit_first sepContents hsep pre suffix hpre
  have h2 : findSplit sepContents suffix = none := findSplit_none sepContents suffix hsuf₂
  have hsplit : jsSplitList sepContents (pre ++ (sepContents ++ suffix)) = [pre, suffix] := by
    rw [jsSplitList_cons sepContents hsep _ pre suffix h1,
      jsSplitList_single sepContents suffix h2]
  have hpath : readResourceSentPath (pre ++ (sepContents ++ suffix)).asString
      = suffix.asString := by
    unfold readResourceSentPath readResourcePath jsSplit
    rw [show ("/contents/" : String).data = sepContents from rfl]
    rw [show ((pre ++ (sepContents ++ suffix)).asString).data
        = pre ++ (sepContents ++ suffix) from rfl]
    rw [hsplit]
    rfl
  refine ⟨hpath, ?_⟩
  intro fetch res hres
  simp only [readResourceHandler] at hres
  rcases hg : getFileContent config
      (readResourceSentPath (pre ++ (sepContents ++ suffix)).asString) fetch with ⟨r, log⟩
  rw [hg] at hres
  cases r with
  | ok text =>
    simp only at hres
    rw [← Except.ok.inj hres]
    rfl
  | error e => simp at hres

/-- C1 witness: a path component with one occurrence of the separator
yields everything after it, and the URI is echoed unchanged. -/
theorem readResource_path_extraction_witness :
    readResourceSentPath (preW ++ (sepContents ++ sufW)).asString = sufW.asString ∧
    ∀ (fetch : Fetch) (res : ReadResourceResult),
      (readResourceHandler cfgW uriW (preW ++ (sepContents ++ sufW)).asString fetch).1
        = .ok res →
      res.contents.map (fun rc => rc.uri) = [uriW] :=
  readResource_path_extraction cfgW uriW preW sufW (by decide) (by decide)

/-- C1 counterexample: on a path component where the separator occurs
twice, the handler sends the segment between the two occurrences, not
everything after the literal substring as the claim states. -/
theorem readResource_path_extraction_counterexample :
    readResourceSentPath "/repos/o/r/contents/a/contents/b.ts" = "a" ∧
    specPathAfterContents "/repos/o/r/contents/a/contents/b.ts" = some "a/contents/b.ts" ∧
    readResourceSentPath "/repos/o/r/contents/a/contents/b.ts" ≠ "a/contents/b.ts" := by
  refine ⟨by decide, by decide, by decide⟩

end GithubRepoMcp
